import Mathlib

/-!
# Verification of the missing-daughters analysis pipeline

Shallow embedding of the data-normalisation and statistical-aggregation
pipeline of the `missing_daughters_of_pols` repository (principally the
notebook `scripts/03_ls_daughters.ipynb`).  DataFrame rows become `Rec`
values, pandas column arithmetic with NaN propagation becomes `Option`
arithmetic, and numpy float division (with its `inf`/`nan` results on a
zero denominator) becomes the `RatioResult` type over exact rationals.
-/

/-- One row of the concatenated Lok Sabha biodata frame: the columns the
notebook actually touches.  `numberOfSons`/`numberOfDaughters` are
`Option ℕ` because the source columns are floats with NaN for missing. -/
structure Rec where
  mpsno : ℕ
  partySname : String
  ls : String
  numberOfSons : Option ℕ
  numberOfDaughters : Option ℕ
deriving DecidableEq, Repr, Inhabited

/-- Result of a numpy float division of non-negative sums: a finite rational,
`inf` (positive numerator over zero denominator) or `nan` (0.0/0.0).
numpy emits a RuntimeWarning in the latter two cases but never raises. -/
inductive RatioResult where
  | val (q : ℚ)
  | inf
  | nan
deriving DecidableEq, Repr

/-- numpy float division of two non-negative integer sums. -/
def npDiv (n d : ℕ) : RatioResult :=
  if d ≠ 0 then .val ((n : ℚ) / d)
  else if n = 0 then .nan
  else .inf

/-- `np.sum(data['numberOfSons'])`: pandas column sum, skipping NaN. -/
def sumSons (rs : List Rec) : ℕ :=
  (rs.map (fun r => r.numberOfSons.getD 0)).sum

/-- `np.sum(data['numberOfDaughters'])`: pandas column sum, skipping NaN. -/
def sumDaughters (rs : List Rec) : ℕ :=
  (rs.map (fun r => r.numberOfDaughters.getD 0)).sum

/-- `calculate_ratio(data)` from the notebook:
`np.sum(data['numberOfSons']) / np.sum(data['numberOfDaughters'])`. -/
def calculate_ratio (rs : List Rec) : RatioResult :=
  npDiv (sumSons rs) (sumDaughters rs)

/-- `df_small = df.loc[~(df['numberOfSons'].isna() & df['numberOfDaughters'].isna())]`:
drop rows where BOTH family fields are missing. -/
def dfSmall (rs : List Rec) : List Rec :=
  rs.filter (fun r => !(r.numberOfSons.isNone && r.numberOfDaughters.isNone))

/-- `df['numberOfSons'].isna().sum()`. -/
def countMissingSons (rs : List Rec) : ℕ :=
  rs.countP (fun r => r.numberOfSons.isNone)

/-- `df['numberOfDaughters'].isna().sum()`. -/
def countMissingDaughters (rs : List Rec) : ℕ :=
  rs.countP (fun r => r.numberOfDaughters.isNone)

/-- `unique_df = df_small.drop_duplicates(subset='mpsno', keep='last')`:
a row is kept iff no later row carries the same `mpsno`; kept rows stay in
frame order (so each key surfaces at the position of its LAST occurrence). -/
def dropDupKeepLast : List Rec → List Rec
  | [] => []
  | x :: rest =>
      if rest.any (fun y => y.mpsno == x.mpsno) then dropDupKeepLast rest
      else x :: dropDupKeepLast rest

/-- `unique_df['total_kids'] = unique_df['numberOfDaughters'] + unique_df['numberOfSons']`:
pandas addition propagates NaN when either side is missing. -/
def totalKids (r : Rec) : Option ℕ :=
  match r.numberOfSons, r.numberOfDaughters with
  | some s, some d => some (s + d)
  | _, _ => none

/-- `df_kids = unique_df[unique_df['total_kids'] > 0]`: the comparison
`NaN > 0` is False in pandas, so rows with a missing side are dropped too. -/
def dfKids (rs : List Rec) : List Rec :=
  rs.filter (fun r => match totalKids r with
    | some t => decide (0 < t)
    | none => false)

/-- `df_kids['prop_daughter'] = df_kids['numberOfDaughters']/df_kids['total_kids']`,
then `.mean()` of that column, which skips NaN and is NaN on an empty frame
(modelled as `none`). -/
def propDaughterVals (rs : List Rec) : List ℚ :=
  (dfKids rs).filterMap (fun r =>
    match r.numberOfDaughters, totalKids r with
    | some d, some t => some ((d : ℚ) / t)
    | _, _ => none)

/-- pandas `Series.mean()` over an exact list of values: NaN (here `none`)
when the list is empty. -/
def npMean (xs : List ℚ) : Option ℚ :=
  if xs.isEmpty then none else some (xs.sum / xs.length)

/-- `df_kids['prop_daughter'].mean()`. -/
def propDaughtersMean (rs : List Rec) : Option ℚ :=
  npMean (propDaughterVals rs)

/-- `unique_df['total_kids'].mean()`: mean of the derived children count,
skipping missing entries, NaN (`none`) when no entry is present. -/
def meanTotalKids (rs : List Rec) : Option ℚ :=
  npMean (rs.filterMap (fun r => (totalKids r).map (fun t => (t : ℚ))))

/-- Per-group sex ratio of a group-by breakdown
(`df.groupby(k)[['numberOfSons','numberOfDaughters']].sum()` followed by the
ratio column), read off at one group key. -/
def groupLsSexRatio (rs : List Rec) (session : String) : RatioResult :=
  calculate_ratio (rs.filter (fun r => r.ls == session))

/-- The spec's formula for proportion-of-daughters: directly collect
`d/(s+d)` over the records with both fields present and `s + d > 0`,
then average.  (Named comparison point for the pandas pipeline.) -/
def propDaughtersSpec (rs : List Rec) : Option ℚ :=
  npMean (rs.filterMap (fun r =>
    match r.numberOfSons, r.numberOfDaughters with
    | some s, some d => if 0 < s + d then some ((d : ℚ) / (s + d)) else none
    | _, _ => none))

/-! ## Bootstrap (SignificanceEngine)

The bootstrap cell runs `np.random.seed(314)` and then draws
`n_iterations` resamples via `unique_df.sample(n=sample_size, replace=True)`,
which consumes numpy's GLOBAL generator.  numpy's Mersenne Twister is
external library code; it is modelled by a concrete deterministic
linear-congruential generator over a `ℕ` state — what matters for the
claims is that the draw sequence is a pure function of the seed, that the
cell reseeds (discarding whatever global state preceded it), and the
shape of the resampling loop, all of which the embedding preserves. -/

/-- Global numpy RNG state (model). -/
abbrev RngState := ℕ

/-- One step of the modelled generator (64-bit LCG). -/
def lcgNext (s : RngState) : RngState :=
  (6364136223846793005 * s + 1442695040888963407) % (2 ^ 64)

/-- `np.random.seed(314)`: replace the global state with one derived
deterministically from the seed alone. -/
def npSeed (n : ℕ) : RngState := n % (2 ^ 64)

/-- Draw one row index in `[0, n)` and advance the state. -/
def drawIdx (g : RngState) (n : ℕ) : ℕ × RngState :=
  let g' := lcgNext g
  (g' % n, g')

/-- Draw `k` indices in `[0, n)`, threading the state. -/
def drawIdxs : RngState → ℕ → ℕ → List ℕ × RngState
  | g, 0, _ => ([], g)
  | g, k + 1, n =>
      let (i, g') := drawIdx g n
      let (is, g'') := drawIdxs g' k n
      (i :: is, g'')

/-- `unique_df.sample(n=sample_size, replace=True)` with
`sample_size = len(unique_df)`: draw `len rs` row indices with replacement
from the global generator. -/
def sampleWithReplacement (rs : List Rec) (g : RngState) : List Rec × RngState :=
  let (is, g') := drawIdxs g rs.length rs.length
  (is.map (fun i => rs.getD i default), g')

/-- The bootstrap loop body repeated `nIter` times, collecting the resamples. -/
def bootstrapSamples (rs : List Rec) : ℕ → RngState → List (List Rec) × RngState
  | 0, g => ([], g)
  | k + 1, g =>
      let (s, g') := sampleWithReplacement rs g
      let (ss, g'') := bootstrapSamples rs k g'
      (s :: ss, g'')

/-- Extract the finite value of a ratio, if any. -/
def RatioResult.toQ : RatioResult → Option ℚ
  | .val q => some q
  | _ => none

/-- Population variance `mean((x - mean x)^2)` of an exact value list. -/
def varOf (qs : List ℚ) : ℚ :=
  let μ := qs.sum / qs.length
  (qs.map (fun x => (x - μ) ^ 2)).sum / qs.length

/-- `np.std(ratios)` SQUARED: the embedding stays in exact rationals, so it
returns the population variance; `np.std` itself is the non-negative square
root of this value, a strictly monotone function of it, so determinism and
shape claims transfer verbatim.  A non-finite entry (`inf`/`nan` from a
zero-daughter resample) makes the numpy result `nan`, mirrored here. -/
def npStdSq (xs : List RatioResult) : RatioResult :=
  let qs := xs.filterMap RatioResult.toQ
  if xs.isEmpty then .nan
  else if qs.length = xs.length then .val (varOf qs) else .nan

/-- The whole bootstrap cell: reseed the global generator with 314
(whatever state `g0` it held before), draw `nIter` resamples, apply
`calculate_ratio` to each, and take `np.std` of the results (squared — see
`npStdSq`). -/
def bootstrapCell (g0 : RngState) (rs : List Rec) (nIter : ℕ) : RatioResult :=
  let _ := g0
  let g := npSeed 314
  let (samples, _) := bootstrapSamples rs nIter g
  npStdSq (samples.map calculate_ratio)

/-! ## Party-wise breakdown and the chi-square cell -/

/-- Comparator used by `sort_values('sex_ratio', ascending=False)`:
`inf` sorts above every finite value; `nan` (unreachable after the
`> 100` filter, which forbids an all-zero group) is placed last, as pandas
places NaN. -/
def ratioGe : RatioResult → RatioResult → Bool
  | .nan, _ => false
  | _, .nan => true
  | .inf, _ => true
  | _, .inf => false
  | .val a, .val b => decide (b ≤ a)

/-- One row of the party aggregation frame `adf`:
party, summed sons, summed daughters, derived sex ratio. -/
structure PartyRow where
  party : String
  sons : ℕ
  daughters : ℕ
  ratio : RatioResult
deriving DecidableEq, Repr

/-- `unique_df.groupby('partySname')[['numberOfSons','numberOfDaughters']].sum()`
with the derived `sex_ratio` column: pandas groupby lists each key once, in
ascending key order, with the per-group column sums. -/
def partyGroupSums (rs : List Rec) : List PartyRow :=
  (List.insertionSort (· ≤ ·) (rs.map Rec.partySname).dedup).map (fun p =>
    let grp := rs.filter (fun r => r.partySname == p)
    { party := p, sons := sumSons grp, daughters := sumDaughters grp,
      ratio := calculate_ratio grp })

/-- `pdf = adf[(adf['numberOfDaughters'] + adf['numberOfSons']) > 100]
.sort_values('sex_ratio', ascending=False)[0:10]`. -/
def partyBreakdown (rs : List Rec) : List PartyRow :=
  ((List.insertionSort (fun a b => ratioGe a.ratio b.ratio)
      ((partyGroupSums rs).filter (fun e => decide (100 < e.daughters + e.sons)))).take 10)

/-- `pd.crosstab(pdf['numberOfSons'], ['numberOfDaughters'])`: the column
argument is the CONSTANT one-element list, so every row of the index series
falls in the same single column; the table has one row per distinct value
of `pdf['numberOfSons']` (in ascending order) holding that value's
occurrence count. -/
def crosstabConstCol (vals : List ℕ) : List (List ℚ) :=
  (List.insertionSort (· ≤ ·) vals.dedup).map (fun v => [(vals.count v : ℚ)])

/-- Row sums of a contingency table. -/
def rowSums (t : List (List ℚ)) : List ℚ := t.map List.sum

/-- Column sum at index `j`. -/
def colSum (t : List (List ℚ)) (j : ℕ) : ℚ := (t.map (fun row => row.getD j 0)).sum

/-- Grand total of a contingency table. -/
def grandTotal (t : List (List ℚ)) : ℚ := (rowSums t).sum

/-- The `(observed - expected)^2 / expected` terms of one table row,
walking the row with its column index; `rsum` is the row's sum and `N` the
grand total, so `expected = rsum * colSum j / N`. -/
def cellTerms (t : List (List ℚ)) (rsum N : ℚ) : ℕ → List ℚ → List ℚ
  | _, [] => []
  | j, o :: rest =>
      ((o - rsum * colSum t j / N) ^ 2 / (rsum * colSum t j / N)) ::
        cellTerms t rsum N (j + 1) rest

/-- The chi-square statistic of `scipy.stats.chi2_contingency`:
`sum((observed - expected)^2 / expected)` with
`expected[i][j] = rowSum i * colSum j / total`. -/
def chi2stat (t : List (List ℚ)) : ℚ :=
  let N := grandTotal t
  (t.map (fun row => (cellTerms t row.sum N 0 row).sum)).sum

/-- Degrees of freedom `(rows - 1) * (cols - 1)` of a contingency table. -/
def dofOf (t : List (List ℚ)) : ℕ :=
  (t.length - 1) * ((t.headD []).length - 1)

/-- The chi-square survival function (p-value).  Exactly computable only at
`dof = 0`, where scipy's `chdtrc` yields 1 for a statistic `≤ 0` and 0
otherwise; for `dof > 0` the value is transcendental and returned as
`none` — every chi-square call in the notebook has a one-column table,
hence `dof = 0`, so this case is never reached there. -/
def chi2_pvalue (dof : ℕ) (x : ℚ) : Option ℚ :=
  if dof = 0 then some (if x ≤ 0 then 1 else 0) else none

/-- The crosstab the chi-square cell builds from the party frame `pdf`. -/
def chi2CellTable (rs : List Rec) : List (List ℚ) :=
  crosstabConstCol ((partyBreakdown rs).map PartyRow.sons)

/-- The chi-square cell:
`chi2, p_value, dof, expected = stats.chi2_contingency(pd.crosstab(pdf['numberOfSons'], ['numberOfDaughters']))`,
returning the `(chi2, p_value)` pair the notebook prints — a bare pair of
numbers, with no further tag or signal attached.  `none` models the
`ValueError` scipy raises on a zero-size table. -/
def chi2Cell (rs : List Rec) : Option (ℚ × Option ℚ) :=
  let t := chi2CellTable rs
  if t.isEmpty then none
  else some (chi2stat t, chi2_pvalue (dofOf t) (chi2stat t))

/-! ## FieldNormalizer -/

/-- A raw field value as delivered by a scraper: absent (null/NaN), a
string, or an integer. -/
inductive Raw where
  | absent
  | str (s : String)
  | num (n : ℤ)
deriving DecidableEq, Repr

/-- Outcome of normalising one raw field: an optional count, or the
`InvalidCount` rejection signal. -/
inductive NormResult where
  | ok (n : Option ℕ)
  | invalidCount
deriving DecidableEq, Repr

/-- Modelled from the spec: the closed vocabulary of number words
zero..twenty of `FieldNormalizer` (§4.1); the normaliser itself is not in
the repository sources, only described there (the data-collection notes
record the "One"/"one" → 1, "Two"/"two" → 2, ... conversion). -/
def numberWords : List (String × ℕ) :=
  [("zero", 0), ("one", 1), ("two", 2), ("three", 3), ("four", 4),
   ("five", 5), ("six", 6), ("seven", 7), ("eight", 8), ("nine", 9),
   ("ten", 10), ("eleven", 11), ("twelve", 12), ("thirteen", 13),
   ("fourteen", 14), ("fifteen", 15), ("sixteen", 16), ("seventeen", 17),
   ("eighteen", 18), ("nineteen", 19), ("twenty", 20)]

/-- ASCII whitespace, as stripped by Python's `str.strip()`. -/
def isSpaceChar (c : Char) : Bool :=
  c == ' ' || c == '\t' || c == '\n' || c == '\r'

/-- Python's `str.strip()` over the character list of a string. -/
def pyStrip (s : String) : String :=
  ⟨((s.data.dropWhile isSpaceChar).reverse.dropWhile isSpaceChar).reverse⟩

/-- Python's `str.lower()` over the character list of a string. -/
def pyLower (s : String) : String :=
  ⟨s.data.map Char.toLower⟩

/-- The numeric value of one ASCII digit character, if it is one. -/
def charDigit (c : Char) : Option ℕ :=
  if '0' ≤ c ∧ c ≤ '9' then some (c.toNat - 48) else none

/-- Accumulate the decimal value of a digit-character list; `none` on the
first non-digit. -/
def digitsValAux (acc : ℕ) : List Char → Option ℕ
  | [] => some acc
  | c :: cs =>
      match charDigit c with
      | some d => digitsValAux (acc * 10 + d) cs
      | none => none

/-- Python's `int(s)` for non-empty plain decimal strings; `none` otherwise. -/
def parseNat (s : String) : Option ℕ :=
  match s.data with
  | [] => none
  | cs => digitsValAux 0 cs

/-- One decimal digit as a character. -/
def digitChar (n : ℕ) : Char := Char.ofNat (48 + n)

/-- Decimal digits of `n`, most significant first (fuel-structured so the
kernel can evaluate it). -/
def decimalAux : ℕ → ℕ → List Char
  | 0, _ => []
  | fuel + 1, n =>
      if n < 10 then [digitChar n]
      else decimalAux fuel (n / 10) ++ [digitChar (n % 10)]

/-- The plain decimal digit string of a natural number. -/
def decimalRepr (n : ℕ) : String := ⟨decimalAux (n + 1) n⟩

/-- Modelled from the spec: `FieldNormalizer.normalize(raw) -> Optional[int]`
(§4.1) — the normaliser code is missing from `src/`.  Absent → `None`;
non-negative integer → itself; a string is trimmed, lower-cased, matched
against the word vocabulary and then against plain digit strings; anything
else is the `InvalidCount` rejection. -/
def FieldNormalizer.normalize : Raw → NormResult
  | .absent => .ok none
  | .num n => if 0 ≤ n then .ok (some n.toNat) else .invalidCount
  | .str s =>
      let t := pyLower (pyStrip s)
      match numberWords.lookup t with
      | some n => .ok (some n)
      | none =>
          match parseNat t with
          | some n => .ok (some n)
          | none => .invalidCount

/-- The `identity_key` values (`mpsno`) in order of FIRST appearance in the
corpus — the ordering the spec asserts for the deduplicated output. -/
def firstAppearanceKeys (rs : List Rec) : List ℕ :=
  (rs.map Rec.mpsno).eraseDups

/-! ## Theorems -/

lemma npMean_perm {xs ys : List ℚ} (h : xs.Perm ys) : npMean xs = npMean ys := by
  have h1 : xs.length = ys.length := h.length_eq
  have h2 : xs.sum = ys.sum := h.sum_eq
  have h3 : xs.isEmpty = ys.isEmpty := by
    cases xs <;> cases ys <;> simp_all
  unfold npMean
  rw [h3, h1, h2]

lemma calculate_ratio_perm {rs rs' : List Rec} (h : rs.Perm rs') :
    calculate_ratio rs = calculate_ratio rs' := by
  unfold calculate_ratio sumSons sumDaughters
  rw [(h.map _).sum_eq, (h.map _).sum_eq]

/-- C1 counterexample input evaluated: on a corpus whose only record has a
missing daughters field, `calculate_ratio` silently returns infinity — the
result type carries no `DivisionByZero` sentinel at all. -/
theorem C1_counterexample :
    calculate_ratio [{ mpsno := 3, partySname := "X", ls := "12",
                       numberOfSons := some 2, numberOfDaughters := none }] =
      RatioResult.inf := by
  decide

/-- C1 (amended): `calculate_ratio` sums each field over the records where
that field is present (numpy/pandas skip NaN per column, not per record);
with a non-zero daughters sum it returns the exact quotient, and with a
zero daughters sum it returns `inf` (or `nan` when the sons sum is also
zero) — numpy float semantics, never an exception and never a sentinel. -/
theorem C1_sexRatio (rs : List Rec) :
    (sumDaughters rs ≠ 0 →
      calculate_ratio rs = .val ((sumSons rs : ℚ) / (sumDaughters rs))) ∧
    (sumDaughters rs = 0 → 0 < sumSons rs → calculate_ratio rs = .inf) ∧
    (sumDaughters rs = 0 → sumSons rs = 0 → calculate_ratio rs = .nan) := by
  refine ⟨fun hd => ?_, fun hd hn => ?_, fun hd hn => ?_⟩
  · simp [calculate_ratio, npDiv, hd]
  · simp only [calculate_ratio, npDiv, hd]
    have hn' : sumSons rs ≠ 0 := by omega
    simp [hn']
  · simp [calculate_ratio, npDiv, hd, hn]

/-- Witness for C1: a concrete corpus with daughters present, evaluated
through the amended theorem. -/
theorem C1_sexRatio_witness :
    calculate_ratio [(⟨1, "P", "12", some 4, some 2⟩ : Rec)] = RatioResult.val 2 := by
  have h := (C1_sexRatio [(⟨1, "P", "12", some 4, some 2⟩ : Rec)]).1 (by decide)
  have hs : sumSons [(⟨1, "P", "12", some 4, some 2⟩ : Rec)] = 4 := by decide
  have hd : sumDaughters [(⟨1, "P", "12", some 4, some 2⟩ : Rec)] = 2 := by decide
  rw [hs, hd] at h
  rw [h]
  norm_num

/-- C2: the pandas pipeline (`total_kids` column with NaN-propagating
addition, `> 0` filter where `NaN > 0` is False, `prop_daughter` ratio
column, NaN-skipping mean) computes exactly the spec's formula: the mean of
`daughters / (sons + daughters)` over the records with both fields present
and at least one child; records with zero children or a missing field
contribute nothing. -/
theorem C2_propDaughters (rs : List Rec) :
    propDaughtersMean rs = propDaughtersSpec rs := by
  unfold propDaughtersMean propDaughtersSpec propDaughterVals dfKids
  congr 1
  rw [List.filterMap_filter]
  apply List.filterMap_congr
  intro r _
  rcases hs : r.numberOfSons with _ | s <;>
    rcases hd : r.numberOfDaughters with _ | d <;>
      simp [totalKids, hs, hd]

lemma dropDupKeepLast_cons_pos {x : Rec} {rest : List Rec}
    (h : rest.any (fun y => y.mpsno == x.mpsno) = true) :
    dropDupKeepLast (x :: rest) = dropDupKeepLast rest := by
  simp [dropDupKeepLast, h]

lemma dropDupKeepLast_cons_neg {x : Rec} {rest : List Rec}
    (h : rest.any (fun y => y.mpsno == x.mpsno) = false) :
    dropDupKeepLast (x :: rest) = x :: dropDupKeepLast rest := by
  simp [dropDupKeepLast, h]

lemma mem_of_mem_dropDupKeepLast {r : Rec} :
    ∀ {xs : List Rec}, r ∈ dropDupKeepLast xs → r ∈ xs := by
  intro xs
  induction xs with
  | nil => simp [dropDupKeepLast]
  | cons x rest ih =>
      intro h
      cases hx : rest.any (fun y => y.mpsno == x.mpsno) with
      | true =>
          rw [dropDupKeepLast_cons_pos hx] at h
          exact List.mem_cons_of_mem _ (ih h)
      | false =>
          rw [dropDupKeepLast_cons_neg hx, List.mem_cons] at h
          rcases h with h | h
          · exact h ▸ List.mem_cons_self _ _
          · exact List.mem_cons_of_mem _ (ih h)

lemma filter_key_eq_nil {xs : List Rec} {k : ℕ}
    (h : ∀ y ∈ xs, ¬ y.mpsno = k) : xs.filter (fun r => r.mpsno == k) = [] := by
  rw [List.filter_eq_nil_iff]
  intro y hy
  simpa using h y hy

/-- `drop_duplicates(keep='last')` retains, for each key, exactly the last
row of the frame bearing it. -/
lemma dropDupKeepLast_filter_key (k : ℕ) :
    ∀ xs : List Rec,
      (dropDupKeepLast xs).filter (fun r => r.mpsno == k) =
        ((xs.filter (fun r => r.mpsno == k)).getLast?).toList := by
  intro xs
  induction xs with
  | nil => simp [dropDupKeepLast]
  | cons x rest ih =>
      cases hx : rest.any (fun y => y.mpsno == x.mpsno) with
      | true =>
          rw [dropDupKeepLast_cons_pos hx]
          by_cases hk : x.mpsno = k
          · have hne : rest.filter (fun r => r.mpsno == k) ≠ [] := by
              rcases List.any_eq_true.mp hx with ⟨y, hy, hyk⟩
              have hmem : y ∈ rest.filter (fun r => r.mpsno == k) := by
                rw [List.mem_filter]
                exact ⟨hy, by simp [(by simpa using hyk : y.mpsno = x.mpsno), hk]⟩
              exact List.ne_nil_of_mem hmem
            rcases he : rest.filter (fun r => r.mpsno == k) with _ | ⟨a, t⟩
            · exact absurd he hne
            · rw [ih, List.filter_cons_of_pos (by simp [hk]), he,
                List.getLast?_cons_cons]
          · rw [ih, List.filter_cons_of_neg (by simp [hk])]
      | false =>
          rw [dropDupKeepLast_cons_neg hx]
          rw [List.any_eq_false] at hx
          by_cases hk : x.mpsno = k
          · have hrest : ∀ y ∈ rest, ¬ y.mpsno = k := by
              intro y hy hyk
              exact hx y hy (by simp [hyk, hk])
            have h1 : rest.filter (fun r => r.mpsno == k) = [] :=
              filter_key_eq_nil hrest
            have h2 : (dropDupKeepLast rest).filter (fun r => r.mpsno == k) = [] :=
              filter_key_eq_nil (fun y hy => hrest y (mem_of_mem_dropDupKeepLast hy))
            rw [List.filter_cons_of_pos (by simp [hk]), h2,
              List.filter_cons_of_pos (by simp [hk]), h1]
            rfl
          · rw [List.filter_cons_of_neg (by simp [hk]), ih,
              List.filter_cons_of_neg (by simp [hk])]

lemma dropDupKeepLast_sublist : ∀ xs : List Rec, (dropDupKeepLast xs).Sublist xs := by
  intro xs
  induction xs with
  | nil => simp [dropDupKeepLast]
  | cons x rest ih =>
      cases hx : rest.any (fun y => y.mpsno == x.mpsno) with
      | true =>
          rw [dropDupKeepLast_cons_pos hx]
          exact ih.cons x
      | false =>
          rw [dropDupKeepLast_cons_neg hx]
          exact ih.cons₂ x

lemma nodup_keys_dropDupKeepLast :
    ∀ xs : List Rec, ((dropDupKeepLast xs).map Rec.mpsno).Nodup := by
  intro xs
  induction xs with
  | nil => simp [dropDupKeepLast]
  | cons x rest ih =>
      cases hx : rest.any (fun y => y.mpsno == x.mpsno) with
      | true =>
          rw [dropDupKeepLast_cons_pos hx]
          exact ih
      | false =>
          rw [dropDupKeepLast_cons_neg hx, List.map_cons, List.nodup_cons]
          refine ⟨?_, ih⟩
          rw [List.any_eq_false] at hx
          rw [List.mem_map]
          rintro ⟨y, hy, hyk⟩
          exact hx y (mem_of_mem_dropDupKeepLast hy) (by simp [hyk])

lemma dropDupKeepLast_eq_self_of_nodup :
    ∀ xs : List Rec, (xs.map Rec.mpsno).Nodup → dropDupKeepLast xs = xs := by
  intro xs
  induction xs with
  | nil => intro _; rfl
  | cons x rest ih =>
      intro h
      rw [List.map_cons, List.nodup_cons] at h
      have hx : rest.any (fun y => y.mpsno == x.mpsno) = false := by
        rw [List.any_eq_false]
        intro y hy
        simp only [beq_iff_eq]
        intro hyk
        exact h.1 (List.mem_map.mpr ⟨y, hy, hyk⟩)
      rw [dropDupKeepLast_cons_neg hx, ih h.2]

/-- C3 counterexample: input `[r₁, r₂, r₃]` with `r₁` and `r₃` sharing
`mpsno = 1`.  `drop_duplicates(keep='last')` outputs the keys in order of
LAST appearance (`[2, 1]`), not the claimed order of first appearance
(`[1, 2]`). -/
theorem C3_counterexample :
    (dropDupKeepLast
        [(⟨1, "A", "12", some 1, some 1⟩ : Rec),
         (⟨2, "B", "12", some 1, some 0⟩ : Rec),
         (⟨1, "A", "17", some 2, some 0⟩ : Rec)]).map Rec.mpsno = [2, 1] ∧
    firstAppearanceKeys
        [(⟨1, "A", "12", some 1, some 1⟩ : Rec),
         (⟨2, "B", "12", some 1, some 0⟩ : Rec),
         (⟨1, "A", "17", some 2, some 0⟩ : Rec)] = [1, 2] ∧
    ([2, 1] : List ℕ) ≠ [1, 2] := by
  refine ⟨by decide, by decide, by decide⟩

/-- C3 (amended): under the keep-last policy, each key present in the input
survives as exactly one record — the LAST input record bearing it; the
operation is idempotent; and the output is a subsequence of the input, so
it preserves relative input order of the kept rows, i.e. the relative
order of LAST (not first) appearance of each key. -/
theorem C3_dedupe (xs : List Rec) :
    (∀ k, (dropDupKeepLast xs).filter (fun r => r.mpsno == k) =
        ((xs.filter (fun r => r.mpsno == k)).getLast?).toList) ∧
    dropDupKeepLast (dropDupKeepLast xs) = dropDupKeepLast xs ∧
    (dropDupKeepLast xs).Sublist xs :=
  ⟨fun k => dropDupKeepLast_filter_key k xs,
   dropDupKeepLast_eq_self_of_nodup _ (nodup_keys_dropDupKeepLast xs),
   dropDupKeepLast_sublist xs⟩

lemma drawIdxs_fst_length : ∀ (k : ℕ) (g : RngState) (n : ℕ),
    (drawIdxs g k n).1.length = k := by
  intro k
  induction k with
  | zero => intro g n; rfl
  | succ k ih =>
      intro g n
      simp only [drawIdxs]
      rw [List.length_cons, ih]

lemma sampleWithReplacement_fst_length (rs : List Rec) (g : RngState) :
    (sampleWithReplacement rs g).1.length = rs.length := by
  simp only [sampleWithReplacement]
  rw [List.length_map, drawIdxs_fst_length]

lemma bootstrapSamples_fst_length (rs : List Rec) :
    ∀ (n : ℕ) (g : RngState), (bootstrapSamples rs n g).1.length = n := by
  intro n
  induction n with
  | zero => intro g; rfl
  | succ n ih =>
      intro g
      simp only [bootstrapSamples]
      rw [List.length_cons, ih]

lemma bootstrapSamples_mem_length (rs : List Rec) :
    ∀ (n : ℕ) (g : RngState) (s : List Rec),
      s ∈ (bootstrapSamples rs n g).1 → s.length = rs.length := by
  intro n
  induction n with
  | zero => intro g s h; simp [bootstrapSamples] at h
  | succ n ih =>
      intro g s h
      simp only [bootstrapSamples, List.mem_cons] at h
      rcases h with h | h
      · rw [h, sampleWithReplacement_fst_length]
      · exact ih _ s h

/-- C4: the bootstrap cell reseeds numpy's global generator with 314 before
the loop, so its output is independent of whatever global RNG state `g0`
existed beforehand — two runs on identical input give the identical numeric
output; the loop draws exactly `n` resamples, each the size of the input
corpus; and the returned number is `np.std` of `calculate_ratio` applied to
each resample (its square, the population variance, in this exact-rational
embedding). -/
theorem C4_bootstrap (g0 g0' : RngState) (rs : List Rec) (n : ℕ) :
    bootstrapCell g0 rs n = bootstrapCell g0' rs n ∧
    (bootstrapSamples rs n (npSeed 314)).1.length = n ∧
    (∀ s ∈ (bootstrapSamples rs n (npSeed 314)).1, s.length = rs.length) ∧
    bootstrapCell g0 rs n =
      npStdSq (((bootstrapSamples rs n (npSeed 314)).1).map calculate_ratio) :=
  ⟨rfl, bootstrapSamples_fst_length rs n _,
   fun s hs => bootstrapSamples_mem_length rs n _ s hs, rfl⟩

/-- Witness for C4: two runs of the bootstrap cell from distinct prior
global states, on a concrete two-record corpus, and a concrete resample of
the right size. -/
theorem C4_bootstrap_witness :
    bootstrapCell 0 [(⟨1, "P", "12", some 2, some 1⟩ : Rec),
                     (⟨2, "Q", "12", some 1, some 1⟩ : Rec)] 3 =
      bootstrapCell 99 [(⟨1, "P", "12", some 2, some 1⟩ : Rec),
                        (⟨2, "Q", "12", some 1, some 1⟩ : Rec)] 3 ∧
    ((bootstrapSamples [(⟨1, "P", "12", some 2, some 1⟩ : Rec),
                        (⟨2, "Q", "12", some 1, some 1⟩ : Rec)] 3
        (npSeed 314)).1.headD []).length = 2 :=
  ⟨(C4_bootstrap 0 99 _ 3).1,
   (C4_bootstrap 0 99 [(⟨1, "P", "12", some 2, some 1⟩ : Rec),
        (⟨2, "Q", "12", some 1, some 1⟩ : Rec)] 3).2.2.1 _ (by decide)⟩

lemma propDaughtersMean_perm {rs rs' : List Rec} (h : rs.Perm rs') :
    propDaughtersMean rs = propDaughtersMean rs' := by
  unfold propDaughtersMean propDaughterVals dfKids
  exact npMean_perm ((h.filter _).filterMap _)

lemma meanTotalKids_perm {rs rs' : List Rec} (h : rs.Perm rs') :
    meanTotalKids rs = meanTotalKids rs' := by
  unfold meanTotalKids
  exact npMean_perm (h.filterMap _)

lemma partyGroupSums_perm {rs rs' : List Rec} (h : rs.Perm rs') :
    partyGroupSums rs = partyGroupSums rs' := by
  unfold partyGroupSums
  have hkeys : List.insertionSort (· ≤ ·) (rs.map Rec.partySname).dedup =
      List.insertionSort (· ≤ ·) (rs'.map Rec.partySname).dedup := by
    exact List.eq_of_perm_of_sorted
      ((List.perm_insertionSort _ _).trans
        (((h.map Rec.partySname).dedup).trans
          (List.perm_insertionSort _ _).symm))
      (List.sorted_insertionSort _ _) (List.sorted_insertionSort _ _)
  rw [hkeys]
  apply List.map_congr_left
  intro p _
  have hg : (rs.filter (fun r => r.partySname == p)).Perm
      (rs'.filter (fun r => r.partySname == p)) := h.filter _
  have h1 : sumSons (rs.filter (fun r => r.partySname == p)) =
      sumSons (rs'.filter (fun r => r.partySname == p)) := by
    unfold sumSons
    exact (hg.map _).sum_eq
  have h2 : sumDaughters (rs.filter (fun r => r.partySname == p)) =
      sumDaughters (rs'.filter (fun r => r.partySname == p)) := by
    unfold sumDaughters
    exact (hg.map _).sum_eq
  rw [PartyRow.mk.injEq]
  exact ⟨rfl, h1, h2, calculate_ratio_perm hg⟩

/-- C5: every aggregate of the notebook returns a defined "no data" value
on the empty corpus (numpy/pandas NaN, modelled as `RatioResult.nan` or
`none`; an empty group-by frame) without raising, and each is invariant
under permutation of the input records: the overall sex ratio, the
proportion-of-daughters mean, the mean children count, the per-session
sex-ratio breakdown and the party group-by sums. -/
theorem C5_aggregates (rs rs' : List Rec) (h : rs.Perm rs') :
    calculate_ratio [] = RatioResult.nan ∧
    propDaughtersMean [] = none ∧
    meanTotalKids [] = none ∧
    partyGroupSums [] = [] ∧
    calculate_ratio rs = calculate_ratio rs' ∧
    propDaughtersMean rs = propDaughtersMean rs' ∧
    meanTotalKids rs = meanTotalKids rs' ∧
    (∀ session, groupLsSexRatio rs session = groupLsSexRatio rs' session) ∧
    partyGroupSums rs = partyGroupSums rs' :=
  ⟨rfl, rfl, rfl, rfl, calculate_ratio_perm h, propDaughtersMean_perm h,
   meanTotalKids_perm h,
   fun _session => calculate_ratio_perm (h.filter _),
   partyGroupSums_perm h⟩

/-- Witness for C5: a concrete corpus and a concrete permutation of it,
with the sex ratio evaluated on both orders. -/
theorem C5_aggregates_witness :
    calculate_ratio [(⟨1, "P", "12", some 2, some 1⟩ : Rec),
                     (⟨2, "Q", "13", some 0, some 3⟩ : Rec)] =
      calculate_ratio [(⟨2, "Q", "13", some 0, some 3⟩ : Rec),
                       (⟨1, "P", "12", some 2, some 1⟩ : Rec)] :=
  (C5_aggregates
      [(⟨1, "P", "12", some 2, some 1⟩ : Rec), (⟨2, "Q", "13", some 0, some 3⟩ : Rec)]
      [(⟨2, "Q", "13", some 0, some 3⟩ : Rec), (⟨1, "P", "12", some 2, some 1⟩ : Rec)]
      (by decide)).2.2.2.2.1

/-- C7: a record with BOTH `numberOfSons` and `numberOfDaughters` missing
is removed by the `df_small` NaN filter — so it contributes to neither the
sex ratio nor the proportion-of-daughters pipeline — while the raw corpus
row count and the printed missing-value counts still include it (and no
validation step rejects it: the filter only excludes it from the working
view). -/
theorem C7_missingBoth (l1 l2 : List Rec) (r : Rec)
    (h1 : r.numberOfSons = none) (h2 : r.numberOfDaughters = none) :
    dfSmall (l1 ++ r :: l2) = dfSmall (l1 ++ l2) ∧
    calculate_ratio (dropDupKeepLast (dfSmall (l1 ++ r :: l2))) =
      calculate_ratio (dropDupKeepLast (dfSmall (l1 ++ l2))) ∧
    propDaughtersMean (dropDupKeepLast (dfSmall (l1 ++ r :: l2))) =
      propDaughtersMean (dropDupKeepLast (dfSmall (l1 ++ l2))) ∧
    (l1 ++ r :: l2).length = (l1 ++ l2).length + 1 ∧
    countMissingSons (l1 ++ r :: l2) = countMissingSons (l1 ++ l2) + 1 ∧
    countMissingDaughters (l1 ++ r :: l2) = countMissingDaughters (l1 ++ l2) + 1 := by
  have hdrop : dfSmall (l1 ++ r :: l2) = dfSmall (l1 ++ l2) := by
    unfold dfSmall
    rw [List.filter_append, List.filter_append,
      List.filter_cons_of_neg (by simp [h1, h2])]
  refine ⟨hdrop, by rw [hdrop], by rw [hdrop], ?_, ?_, ?_⟩
  · simp
    omega
  · unfold countMissingSons
    rw [List.countP_append, List.countP_append,
      List.countP_cons_of_pos _ _ (by simp [h1])]
    omega
  · unfold countMissingDaughters
    rw [List.countP_append, List.countP_append,
      List.countP_cons_of_pos _ _ (by simp [h2])]
    omega

/-- Witness for C7: a concrete corpus with one both-missing record between
two complete ones. -/
theorem C7_missingBoth_witness :
    dfSmall [(⟨1, "P", "12", some 2, some 1⟩ : Rec),
             (⟨2, "Q", "13", none, none⟩ : Rec),
             (⟨3, "R", "14", some 1, some 1⟩ : Rec)] =
      dfSmall [(⟨1, "P", "12", some 2, some 1⟩ : Rec),
               (⟨3, "R", "14", some 1, some 1⟩ : Rec)] ∧
    [(⟨1, "P", "12", some 2, some 1⟩ : Rec),
     (⟨2, "Q", "13", none, none⟩ : Rec),
     (⟨3, "R", "14", some 1, some 1⟩ : Rec)].length =
      [(⟨1, "P", "12", some 2, some 1⟩ : Rec),
       (⟨3, "R", "14", some 1, some 1⟩ : Rec)].length + 1 := by
  have h := C7_missingBoth [(⟨1, "P", "12", some 2, some 1⟩ : Rec)]
    [(⟨3, "R", "14", some 1, some 1⟩ : Rec)]
    (⟨2, "Q", "13", none, none⟩ : Rec) rfl rfl
  exact ⟨h.1, h.2.2.2.1⟩

/-- C8 counterexample: a party ("X", 2 sons + 1 daughter = 3 combined
children, below the 100 threshold) occurs in the corpus but is entirely
absent from the party-wise breakdown output — it is dropped by the `> 100`
filter, not returned with a low-confidence flag (the output rows carry no
such flag at all). -/
theorem C8_counterexample :
    partyBreakdown [(⟨1, "X", "12", some 2, some 1⟩ : Rec)] = [] ∧
    [(⟨1, "X", "12", some 2, some 1⟩ : Rec)].map Rec.partySname = ["X"] := by
  refine ⟨by decide, by decide⟩

/-- C8 (amended): the party-wise breakdown cell EXCLUDES every group whose
combined sons + daughters count is at most 100, and keeps at most the top
10 of the remaining groups by descending sex ratio: every row it returns
has a combined count strictly above 100, and there are never more than 10
rows. -/
theorem C8_breakdown (rs : List Rec) :
    (partyBreakdown rs).length ≤ 10 ∧
    ∀ e ∈ partyBreakdown rs, 100 < e.daughters + e.sons := by
  constructor
  · exact List.length_take_le _ _
  · intro e he
    have h1 : e ∈ List.insertionSort (fun a b => ratioGe a.ratio b.ratio)
        ((partyGroupSums rs).filter (fun e => decide (100 < e.daughters + e.sons))) :=
      List.mem_of_mem_take he
    have h2 : e ∈ (partyGroupSums rs).filter
        (fun e => decide (100 < e.daughters + e.sons)) :=
      (List.perm_insertionSort _ _).mem_iff.mp h1
    have h3 := (List.mem_filter.mp h2).2
    simpa using h3

/-- Witness for C8: a corpus with one large party; its breakdown row passes
the threshold bound of the theorem. -/
theorem C8_breakdown_witness :
    100 < ({ party := "P", sons := 120, daughters := 0,
             ratio := RatioResult.inf } : PartyRow).daughters +
          ({ party := "P", sons := 120, daughters := 0,
             ratio := RatioResult.inf } : PartyRow).sons :=
  (C8_breakdown [(⟨1, "P", "12", some 120, some 0⟩ : Rec)]).2 _ (by decide)

/-- C9 (spec-modelled): for every number word zero..ten in any letter case
(anything that lower-cases, after trimming, to the vocabulary entry),
`FieldNormalizer.normalize` returns the same non-negative integer as the
corresponding digit string; normalising an absent value gives `None`,
which differs from `normalize("0") = 0`. -/
theorem C9_normalize :
    (∀ n s, n ≤ 10 → pyLower (pyStrip s) = (numberWords.getD n ("", 0)).1 →
        FieldNormalizer.normalize (.str s) = .ok (some n) ∧
        FieldNormalizer.normalize (.str (decimalRepr n)) = .ok (some n)) ∧
    FieldNormalizer.normalize .absent = .ok none ∧
    FieldNormalizer.normalize (.str "0") = .ok (some 0) ∧
    NormResult.ok none ≠ NormResult.ok (some 0) := by
  refine ⟨?_, rfl, by decide, by decide⟩
  intro n s hn hs
  interval_cases n <;>
    simp only [numberWords, List.getD] at hs <;>
      refine ⟨?_, by decide⟩ <;>
        (simp [FieldNormalizer.normalize, hs]; decide)

/-- Witness for C9: "Two" (mixed case) and "2" both normalise to 2. -/
theorem C9_normalize_witness :
    FieldNormalizer.normalize (.str "Two") = .ok (some 2) ∧
    FieldNormalizer.normalize (.str (decimalRepr 2)) = .ok (some 2) :=
  C9_normalize.1 2 "Two" (by decide) (by decide)

lemma rowSums_single (cs : List ℚ) : rowSums (cs.map (fun c => [c])) = cs := by
  unfold rowSums
  rw [List.map_map]
  have h : ∀ a ∈ cs, (List.sum ∘ fun c => [c]) a = id a := by
    intro a _
    simp
  rw [List.map_congr_left h, List.map_id]

lemma grandTotal_single (cs : List ℚ) :
    grandTotal (cs.map (fun c => [c])) = cs.sum := by
  unfold grandTotal
  rw [rowSums_single]

lemma colSum_zero_single (cs : List ℚ) :
    colSum (cs.map (fun c => [c])) 0 = cs.sum := by
  unfold colSum
  rw [List.map_map]
  have h : ∀ a ∈ cs, ((fun row => row.getD 0 0) ∘ fun c => [c]) a = id a := by
    intro a _
    simp
  rw [List.map_congr_left h, List.map_id]

/-- In a one-column table the expected cell values equal the observed ones,
so the chi-square statistic vanishes. -/
lemma chi2stat_single_col (cs : List ℚ) (hN : cs.sum ≠ 0) :
    chi2stat (cs.map (fun c => [c])) = 0 := by
  simp only [chi2stat, grandTotal_single]
  rw [List.map_map]
  apply List.sum_eq_zero
  intro x hx
  rw [List.mem_map] at hx
  obtain ⟨c, _, rfl⟩ := hx
  simp only [Function.comp, cellTerms, colSum_zero_single, List.sum_cons,
    List.sum_nil, add_zero]
  rw [mul_div_assoc, div_self hN, mul_one]
  simp

lemma chi2CellTable_shape (rs : List Rec) :
    chi2CellTable rs =
      ((List.insertionSort (· ≤ ·) ((partyBreakdown rs).map PartyRow.sons).dedup).map
        (fun v => (((partyBreakdown rs).map PartyRow.sons).count v : ℚ))).map
        (fun c => [c]) := by
  unfold chi2CellTable crosstabConstCol
  rw [List.map_map]
  rfl

lemma chi2Cell_eq_of_nonempty (rs : List Rec) (h : chi2CellTable rs ≠ []) :
    chi2Cell rs = some (0, some 1) := by
  have hshape := chi2CellTable_shape rs
  set vals := (partyBreakdown rs).map PartyRow.sons with hvals
  set cs := (List.insertionSort (· ≤ ·) vals.dedup).map (fun v => ((vals.count v : ℚ)))
    with hcs
  have hcsne : cs ≠ [] := by
    intro hnil
    apply h
    rw [hshape, hnil]
    rfl
  have hpos : ∀ c ∈ cs, 0 < c := by
    intro c hc
    rw [hcs, List.mem_map] at hc
    obtain ⟨v, hv, rfl⟩ := hc
    have hv2 : v ∈ vals.dedup := (List.perm_insertionSort _ _).mem_iff.mp hv
    have hv3 : v ∈ vals := List.mem_dedup.mp hv2
    have : 0 < vals.count v := List.count_pos_iff.mpr hv3
    exact_mod_cast this
  have hsum : cs.sum ≠ 0 := (List.sum_pos cs hpos hcsne).ne'
  have hchi : chi2stat (chi2CellTable rs) = 0 := by
    rw [hshape]
    exact chi2stat_single_col cs hsum
  have hdof : dofOf (chi2CellTable rs) = 0 := by
    rw [hshape]
    rcases cs with _ | ⟨a, t⟩
    · exact absurd rfl hcsne
    · simp [dofOf]
  have hne : (chi2CellTable rs).isEmpty = false := by
    rcases he : chi2CellTable rs with _ | ⟨a, t⟩
    · exact absurd he h
    · rfl
  simp only [chi2Cell]
  rw [hne]
  simp only [Bool.false_eq_true, if_false, hchi, hdof]
  simp [chi2_pvalue]

/-- C6 counterexample: the chi-square cell's value on a corpus whose
contingency table has a single populated cell is the bare pair
`(chi2, p) = (0.0, 1.0)` — the result carries no `DegenerateTable` signal
(its type is just numbers), and it is byte-identical to the cell's output
on entirely different data, so the degenerate outcome is not
programmatically distinguishable. -/
theorem C6_counterexample :
    chi2Cell [(⟨1, "P", "12", some 120, some 0⟩ : Rec)] = some (0, some 1) ∧
    chi2Cell [(⟨2, "Q", "12", some 200, some 0⟩ : Rec)] = some (0, some 1) ∧
    [(⟨1, "P", "12", some 120, some 0⟩ : Rec)] ≠
      [(⟨2, "Q", "12", some 200, some 0⟩ : Rec)] :=
  ⟨chi2Cell_eq_of_nonempty _ (by decide),
   chi2Cell_eq_of_nonempty _ (by decide), by decide⟩

/-- C6 (amended): on any corpus whose (always single-column) contingency
table is non-empty — including the degenerate one-populated-cell case —
the chi-square cell returns exactly `(0.0, 1.0)` without raising; it emits
no `DegenerateTable` signal, and its output on degenerate data equals its
output on any other data, hence is not distinguishable from a genuine
`p = 1.0`. -/
theorem C6_chiSquare (rs rs' : List Rec) (h : chi2CellTable rs ≠ [])
    (h' : chi2CellTable rs' ≠ []) :
    chi2Cell rs = some (0, some 1) ∧ chi2Cell rs = chi2Cell rs' :=
  ⟨chi2Cell_eq_of_nonempty rs h, by
    rw [chi2Cell_eq_of_nonempty rs h, chi2Cell_eq_of_nonempty rs' h']⟩

/-- Witness for C6: two concrete corpora (one-cell table vs two-cell
table) on which the cell output coincides. -/
theorem C6_chiSquare_witness :
    chi2Cell [(⟨1, "R", "13", some 150, some 0⟩ : Rec)] =
      chi2Cell [(⟨2, "S", "13", some 300, some 0⟩ : Rec)] :=
  (C6_chiSquare _ _ (by decide) (by decide)).2

/-- C10: the crosstab is built against the constant one-element list
`['numberOfDaughters']`, so every row of the contingency table has exactly
one column; consequently, whenever the table is non-empty, the test
returns `chi2 = 0.0` and `p = 1.0` regardless of the input values. -/
theorem C10_crosstabConst (rs : List Rec) :
    (∀ row ∈ chi2CellTable rs, row.length = 1) ∧
    (chi2CellTable rs ≠ [] → chi2Cell rs = some (0, some 1)) := by
  constructor
  · intro row hrow
    rw [chi2CellTable_shape rs, List.mem_map] at hrow
    obtain ⟨c, _, rfl⟩ := hrow
    rfl
  · exact chi2Cell_eq_of_nonempty rs

/-- Witness for C10: the chi-square cell on a concrete corpus evaluates to
`(0, 1)`. -/
theorem C10_crosstabConst_witness :
    chi2Cell [(⟨7, "T", "14", some 101, some 0⟩ : Rec)] = some (0, some 1) :=
  (C10_crosstabConst [(⟨7, "T", "14", some 101, some 0⟩ : Rec)]).2 (by decide)
